import Mathlib

/-!
Shallow embedding of the adaptation engine of the `network-god-engine`
repository: the frame scheduler's timing bookkeeping (`engine_core.py`)
and the self-improvement subsystem (`self_improvement_system.py`).

Python floats are modelled as rationals (`ℚ`), Python lists as `List`,
and Python dicts either as insertion-ordered association lists (when the
code iterates over their items) or extensionally as functions (when only
keyed lookup and assignment are used).  The `random.random() > 0.3` draw
and wall-clock reads (`time.time()`) are passed in as explicit arguments.
-/

namespace NetworkGod

/-- Python slice `l[-n:]`: the most recent `n` entries (or all of them). -/
def takeLast {α : Type} (l : List α) (n : Nat) : List α := l.drop (l.length - n)

/-- Arithmetic mean `sum(l) / len(l)` of a list of rationals. -/
def mean (l : List ℚ) : ℚ := l.sum / (l.length : ℚ)

/-- Insertion-ordered key list of a Python dict that is built by repeated
`if k not in d: d[k] = ...`: first-occurrence order, no duplicates. -/
def dedupFirst (l : List String) : List String :=
  l.foldl (fun acc x => if x ∈ acc then acc else acc ++ [x]) []

/-- The `PerformanceMetric` dataclass (`self_improvement_system.py` 25-32). -/
structure PerformanceMetric where
  timestamp : ℚ
  system_name : String
  metric_name : String
  value : ℚ
  target : ℚ
  weight : ℚ
deriving DecidableEq

/-- Performance ratio `metric.value / metric.target` as used throughout
the analysis code. -/
def ratioOf (m : PerformanceMetric) : ℚ := m.value / m.target

/-- The `OptimizationStrategy` dataclass (34-41); `parameters` is an
association list standing for the Python parameter dict. -/
structure OptimizationStrategy where
  name : String
  description : String
  parameters : List (String × ℚ)
  effectiveness : ℚ := 0
  last_applied : ℚ := 0
  application_count : Nat := 0
deriving DecidableEq

/-- The `ImprovementStats` dataclass (43-50). -/
structure ImprovementStats where
  learning_cycles : Nat := 0
  optimizations_applied : Nat := 0
  performance_improvements : Nat := 0
  failed_optimizations : Nat := 0
  avg_improvement_rate : ℚ := 0
  total_improvement : ℚ := 0
deriving DecidableEq

/-- The `ImprovementSettings` dataclass (15-23). -/
structure ImprovementSettings where
  learning_rate : ℚ := 1/100
  adaptation_interval : ℚ := 10
  performance_history_size : Nat := 1000
  optimization_threshold : ℚ := 4/5
  enable_autonomous_optimization : Bool := true
  enable_predictive_optimization : Bool := true
  max_optimization_attempts : Nat := 10
deriving DecidableEq

/-- Default-constructed settings, as built in `SelfImprovementSystem.__init__`. -/
def defaultSettings : ImprovementSettings := {}

/-- A bottleneck record as appended by `_analyze_performance` (220-224). -/
structure Bottleneck where
  system : String
  performance : ℚ
  severity : String
deriving DecidableEq

/-- Result dict of `_analyze_performance` (229-233). -/
structure AnalysisResult where
  overall_performance : ℚ
  system_performance : List (String × ℚ)
  bottlenecks : List Bottleneck
deriving DecidableEq

/-- Queue entry appended by `_apply_optimizations` (247-252).  The Python
queue stores an aliased reference to the strategy object; here the
strategy value travels in the request and is written back to the registry
by name when processed. -/
structure OptimizationRequest where
  strategy : OptimizationStrategy
  system : String
  severity : String
  timestamp : ℚ
deriving DecidableEq

/-- Suggestion dict built by `_generate_improvement_suggestions` (353-359);
`stype` stands for the Python dict key `"type"`. -/
structure Suggestion where
  system : String
  stype : String
  severity : String
  recommendation : String
  timestamp : ℚ
deriving DecidableEq

/-- `system_baselines`: the nested dict `{system: {metric: float}}`,
modelled extensionally (it is only ever read and written by key). -/
abbrev Baselines := String → String → Option ℚ

/-- Default strategy catalog (`_initialize_optimization_strategies` 92-145). -/
def defaultStrategies : List OptimizationStrategy :=
  [ { name := "rendering_quality_adjustment",
      description := "Dynamically adjust rendering quality based on performance",
      parameters := [("target_fps", 60), ("quality_step", 1/10),
                     ("min_quality", 1/2), ("max_quality", 3/2)] },
    { name := "physics_complexity_reduction",
      description := "Reduce physics simulation complexity under load",
      parameters := [("target_frame_time", 16/1000), ("complexity_step", 1/20),
                     ("min_complexity", 1/2), ("max_complexity", 3/2)] },
    { name := "ai_behavior_optimization",
      description := "Optimize AI behavior update frequency",
      parameters := [("target_response_time", 1/20), ("update_rate_step", 1/100),
                     ("min_update_rate", 1/20), ("max_update_rate", 1/2)] },
    { name := "content_generation_caching",
      description := "Optimize content generation caching strategies",
      parameters := [("target_generation_time", 1), ("cache_size_step", 10),
                     ("min_cache_size", 50), ("max_cache_size", 500)] },
    { name := "network_packet_rate_adjustment",
      description := "Adjust network packet rate based on latency",
      parameters := [("target_latency", 1/20), ("packet_rate_step", 5),
                     ("min_packet_rate", 20), ("max_packet_rate", 120)] } ]

/-- Mutable state of `SelfImprovementSystem` (constructor, 52-77).  The
ML-model placeholder dicts, `active_optimizations` and
`experiment_results` are write-only in the source and carry no behaviour,
so they are not modelled. -/
structure SIState where
  settings : ImprovementSettings := {}
  stats : ImprovementStats := {}
  performance_history : List PerformanceMetric := []
  system_baselines : Baselines := fun _ _ => none
  performance_trends : List (String × List ℚ) := []
  optimization_strategies : List OptimizationStrategy := defaultStrategies
  last_adaptation_time : ℚ := 0
  improvement_suggestions : List Suggestion := []
  optimization_queue : List OptimizationRequest := []

/-! ### Performance analysis (`_analyze_performance`, 195-233) -/

/-- One iteration of the dict-building loop at 207-210: append the
metric's ratio to its subsystem's list, creating the entry if absent. -/
def addRatio (acc : List (String × List ℚ)) (m : PerformanceMetric) :
    List (String × List ℚ) :=
  if acc.any (fun p => p.1 = m.system_name) then
    acc.map (fun p => if p.1 = m.system_name then (p.1, p.2 ++ [ratioOf m]) else p)
  else
    acc ++ [(m.system_name, [ratioOf m])]

/-- The `system_performance` dict after the loop at 207-210. -/
def groupRatios (ms : List PerformanceMetric) : List (String × List ℚ) :=
  ms.foldl addRatio []

/-- Body of `_analyze_performance` past the size guard (200-233). -/
def analyzeWindow (recent : List PerformanceMetric) : AnalysisResult :=
  let system_averages := (groupRatios recent).map (fun p => (p.1, mean p.2))
  let bottlenecks := system_averages.filterMap (fun p =>
    if p.2 < 7/10 then
      some ⟨p.1, p.2, if p.2 < 1/2 then "high" else "medium"⟩
    else none)
  let overall := if system_averages.isEmpty then 1
                 else mean (system_averages.map (fun p => p.2))
  ⟨overall, system_averages, bottlenecks⟩

/-- `_analyze_performance` (195-233): healthy default below 10 samples,
otherwise analysis of the last 100 metrics. -/
def analyzePerformance (history : List PerformanceMetric) : AnalysisResult :=
  if history.length < 10 then ⟨1, [], []⟩
  else analyzeWindow (takeLast history 100)

/-! ### Metric recording (`record_performance_metric`, 393-409) -/

/-- History append with the FIFO trim of 405-409, abstracted over the
configured capacity: append, then `pop(0)` once if over capacity. -/
def recordMetric (cap : Nat) (h : List PerformanceMetric)
    (m : PerformanceMetric) : List PerformanceMetric :=
  let h2 := h ++ [m]
  if h2.length > cap then h2.tail else h2

/-- `record_performance_metric` on the full system state. -/
def recordPerformanceMetric (st : SIState) (now : ℚ) (system_name metric_name : String)
    (value target weight : ℚ) : SIState :=
  let m : PerformanceMetric := ⟨now, system_name, metric_name, value, target, weight⟩
  { st with performance_history :=
      recordMetric st.settings.performance_history_size st.performance_history m }

/-! ### Effectiveness feedback (`_apply_optimization_strategy`, 298-315) -/

/-- Effectiveness update for one application attempt (306-310):
`min(1.0, e + 0.1)` when the simulated parameter push succeeds,
`max(0.0, e - 0.05)` when it fails. -/
def effStep (success : Bool) (e : ℚ) : ℚ :=
  if success then min 1 (e + 1/10) else max 0 (e - 1/20)

/-- Effectiveness after a finite sequence of application attempts. -/
def effRun (l : List Bool) (e : ℚ) : ℚ := l.foldl (fun e s => effStep s e) e

/-- `get_performance_rating` (420-435). -/
def getPerformanceRating (history : List PerformanceMetric) : ℚ :=
  if history = [] then 1
  else
    let recent := takeLast history 50
    if recent = [] then 1
    else max 0 (min 1 (mean (recent.map ratioOf)))

/-! ### Frame scheduler timing (`engine_core.py`) -/

/-- The dict stored per frame in `performance_metrics` (117-121). -/
structure FrameMetrics where
  frame_time : ℚ
  fps : ℚ
  frame_number : Nat
deriving DecidableEq

/-- The part of the `GameEngine` state touched by the timing bookkeeping
of `_main_loop` (98-129): `performance_metrics` is a dict keyed by the
strictly increasing frame counter, hence an append-only association
list. -/
structure EngineState where
  current_frame : Nat := 0
  performance_metrics : List (Nat × FrameMetrics) := []
deriving DecidableEq

/-- One `RUNNING` iteration of `_main_loop` (101-126) whose measured
tick duration is `frame_duration`: increment the frame counter and store
the frame's timing record; nothing is ever evicted. -/
def engineTick (frame_duration : ℚ) (st : EngineState) : EngineState :=
  let cf := st.current_frame + 1
  let fm : FrameMetrics :=
    ⟨frame_duration, if frame_duration > 0 then 1 / frame_duration else 0, cf⟩
  { current_frame := cf
    performance_metrics := st.performance_metrics ++ [(cf, fm)] }

/-- A run of the main loop, one tick per measured duration. -/
def runEngine (durations : List ℚ) (st : EngineState) : EngineState :=
  durations.foldl (fun s d => engineTick d s) st

/-- Fresh engine as at `start()`: frame counter 0, no stored metrics. -/
def engineInit : EngineState := { current_frame := 0, performance_metrics := [] }

/-- Window read by the engine's `_analyze_performance` and
`get_performance_stats` (`engine_core.py` 156, 190): the most recent 300
stored frame records. -/
def statsWindow (st : EngineState) : List (Nat × FrameMetrics) :=
  takeLast st.performance_metrics 300

/-! ### Strategy selection, queueing and draining -/

/-- The `strategy_mapping` dict of `_select_optimization_strategy`
(257-263). -/
def strategyMapping (system : String) : Option String :=
  if system = "renderer" then some "rendering_quality_adjustment"
  else if system = "physics" then some "physics_complexity_reduction"
  else if system = "ai_behavior" then some "ai_behavior_optimization"
  else if system = "content_generator" then some "content_generation_caching"
  else if system = "networking" then some "network_packet_rate_adjustment"
  else none

/-- `_select_optimization_strategy` (254-274): map the subsystem to a
strategy name, then return the first registered strategy of that name
(`None` when unmapped or unregistered).  The severity argument is unused
by the source body. -/
def selectOptimizationStrategy (strategies : List OptimizationStrategy)
    (system : String) (_severity : String) : Option OptimizationStrategy :=
  match strategyMapping system with
  | none => none
  | some nm => strategies.find? (fun s => s.name = nm)

/-- One iteration of the bottleneck loop of `_apply_optimizations`
(239-252): select a strategy for the bottleneck and, when one exists,
append an `OptimizationRequest` to the queue. -/
def enqueueBottleneck (now : ℚ) (st : SIState) (b : Bottleneck) : SIState :=
  match selectOptimizationStrategy st.optimization_strategies b.system b.severity with
  | some strat =>
      { st with optimization_queue :=
          st.optimization_queue ++ [(⟨strat, b.system, b.severity, now⟩ : OptimizationRequest)] }
  | none => st

/-- `_apply_optimizations` (235-252). -/
def applyOptimizations (now : ℚ) (analysis : AnalysisResult) (st : SIState) : SIState :=
  analysis.bottlenecks.foldl (enqueueBottleneck now) st

/-- `_apply_optimization_strategy` (298-315).  The simulated parameter
push result (`random.random() > 0.3`) is the explicit `pushOk` argument;
it drives the effectiveness update, but the function returns `True`
regardless: the `except` branch is unreachable because the body cannot
raise. -/
def applyOptimizationStrategy (pushOk : Bool) (s : OptimizationStrategy) :
    OptimizationStrategy × Bool :=
  ({ s with effectiveness := effStep pushOk s.effectiveness }, true)

/-- Write an updated strategy back into the registry by name (the Python
queue aliases the registry's strategy objects, so mutating the popped
strategy mutates the registered one). -/
def updateStrategy (l : List OptimizationStrategy) (s : OptimizationStrategy) :
    List OptimizationStrategy :=
  l.map (fun t => if t.name = s.name then s else t)

/-- `_process_optimization_queue` (276-296): pop at most one request per
call, apply its strategy, and update the statistics according to the
returned success flag. -/
def processOptimizationQueue (pushOk : Bool) (now : ℚ) (st : SIState) : SIState :=
  match st.optimization_queue with
  | [] => st
  | opt :: rest =>
      let ar := applyOptimizationStrategy pushOk opt.strategy
      if ar.2 then
        { st with
            optimization_queue := rest
            stats := { st.stats with
              optimizations_applied := st.stats.optimizations_applied + 1 }
            optimization_strategies := updateStrategy st.optimization_strategies
              { ar.1 with
                  application_count := ar.1.application_count + 1
                  last_applied := now } }
      else
        { st with
            optimization_queue := rest
            stats := { st.stats with
              failed_optimizations := st.stats.failed_optimizations + 1 }
            optimization_strategies := updateStrategy st.optimization_strategies ar.1 }

/-! ### Baselines, trends, suggestions and the update tick -/

/-- One iteration of the baseline loop (370-380): EMA with weight 0.9 on
the current baseline (defaulting to the metric's target) and 0.1 on the
observed value. -/
def baselineStep (b : Baselines) (m : PerformanceMetric) : Baselines :=
  let current := (b m.system_name m.metric_name).getD m.target
  let nb := current * (9/10) + m.value * (1/10)
  fun s mt => if s = m.system_name ∧ mt = m.metric_name then some nb else b s mt

/-- `_update_baselines` (362-380): no update below 100 samples, else one
EMA step per metric among the most recent 100. -/
def updateBaselines (history : List PerformanceMetric) (b : Baselines) : Baselines :=
  if history.length < 100 then b
  else (takeLast history 100).foldl baselineStep b

/-- One iteration of the trend loop (`_update_performance_trends`
325-335): append the metric's ratio to its subsystem's trend list
(creating the entry if absent) and trim the front once the list exceeds
100 entries. -/
def trendStep (tr : List (String × List ℚ)) (m : PerformanceMetric) :
    List (String × List ℚ) :=
  let tr := if tr.any (fun p => p.1 = m.system_name) then tr
            else tr ++ [(m.system_name, [])]
  tr.map (fun p =>
    if p.1 = m.system_name then
      (p.1, let l := p.2 ++ [ratioOf m]; if l.length > 100 then l.tail else l)
    else p)

/-- `_update_performance_trends` (317-335). -/
def updatePerformanceTrends (st : SIState) : SIState :=
  if st.performance_history.length < 50 then st
  else { st with performance_trends :=
          (takeLast st.performance_history 50).foldl trendStep st.performance_trends }

/-- `_generate_improvement_suggestions` (337-360): clear the previous
suggestions, then emit a decline advisory for each subsystem whose
recent trend mean dropped more than 10% below the previous one. -/
def generateImprovementSuggestions (now : ℚ) (st : SIState) : SIState :=
  { st with improvement_suggestions :=
      st.performance_trends.filterMap (fun p =>
        if p.2.length < 10 then none
        else
          let recent_trend := (takeLast p.2 5).sum / 5
          let older_trend := ((takeLast p.2 10).take 5).sum / 5
          if recent_trend < older_trend * (9/10) then
            some ⟨p.1, "performance_decline",
                  if recent_trend < 1/2 then "high" else "medium",
                  "Investigate performance issues in " ++ p.1 ++ " system", now⟩
          else none) }

/-- `_perform_adaptation` (177-193): bump the cycle counter, analyze,
optimize when overall performance is below the threshold, and refresh
the baselines.  (`_train_models` only sleeps and prints.) -/
def performAdaptation (now : ℚ) (st : SIState) : SIState :=
  let st := { st with stats :=
    { st.stats with learning_cycles := st.stats.learning_cycles + 1 } }
  let analysis := analyzePerformance st.performance_history
  let st := if analysis.overall_performance < st.settings.optimization_threshold
            then applyOptimizations now analysis st else st
  { st with system_baselines :=
      updateBaselines st.performance_history st.system_baselines }

/-- Iterated adaptation cycles at the given wall-clock times. -/
def adaptRun (times : List ℚ) (st : SIState) : SIState :=
  times.foldl (fun s t => performAdaptation t s) st

/-- `update` (158-175): run an adaptation cycle when the interval has
elapsed, then drain one queued optimization, refresh the trends, and
regenerate the suggestions. -/
def updateTick (pushOk : Bool) (now : ℚ) (st : SIState) : SIState :=
  let st1 := if now - st.last_adaptation_time > st.settings.adaptation_interval
             then { performAdaptation now st with last_adaptation_time := now }
             else st
  let st2 := processOptimizationQueue pushOk now st1
  let st3 := updatePerformanceTrends st2
  if st3.settings.enable_autonomous_optimization
  then generateImprovementSuggestions now st3 else st3

/-- A run of update ticks, each with its own push outcome and time. -/
def runTicks (ticks : List (Bool × ℚ)) (st : SIState) : SIState :=
  ticks.foldl (fun s p => updateTick p.1 p.2 s) st

/-! ### Concrete scenario states -/

/-- Concrete strategy used by the C1 and C5 scenarios. -/
def c1Strategy : OptimizationStrategy :=
  { name := "rendering_quality_adjustment"
    description := "Dynamically adjust rendering quality based on performance"
    parameters := [("target_fps", 60)]
    effectiveness := 1/2
    last_applied := 0
    application_count := 3 }

/-- State with one queued request, used to exhibit the C1 divergence. -/
def c1State : SIState :=
  { optimization_strategies := [c1Strategy]
    optimization_queue := [⟨c1Strategy, "renderer", "high", 0⟩] }

/-- State with two queued requests, used as the C5 witness input. -/
def c5State : SIState :=
  { optimization_strategies := [c1Strategy]
    optimization_queue := [⟨c1Strategy, "renderer", "high", 0⟩,
                           ⟨c1Strategy, "renderer", "medium", 0⟩] }

/-- State whose recorded metrics are all healthy (ratio 4/5) and whose
queue is nonempty, used as the C3 witness input. -/
def c3State : SIState :=
  { performance_history :=
      [⟨0, "renderer", "frame_time", 4, 5, 1⟩,
       ⟨1, "physics", "frame_time", 4, 5, 1⟩,
       ⟨2, "networking", "latency", 4, 5, 1⟩]
    optimization_strategies := [c1Strategy]
    optimization_queue := [⟨c1Strategy, "renderer", "high", 0⟩] }

/-- State fed 100 constant samples (value 5) of one metric, used as the
C9 witness input. -/
def c9State : SIState :=
  { performance_history :=
      List.replicate 100 (⟨0, "physics", "frame_time", 5, 5, 1⟩ : PerformanceMetric) }

/-! ### Spec-side analyzer definitions (companions for the C6 refinement) -/

/-- Companion definition following the spec's words (4.3): the
subsystems appearing in a window, in first-appearance order. -/
def specSystems (w : List PerformanceMetric) : List String :=
  dedupFirst (w.map (fun m => m.system_name))

/-- Companion definition following the spec's words (4.3): the
per-subsystem mean performance ratio, mean(value/target) over all
metrics for that subsystem in the window. -/
def specSystemMean (w : List PerformanceMetric) (s : String) : ℚ :=
  mean ((w.filter (fun m => m.system_name = s)).map ratioOf)

/-- Twelve-sample window on which overall performance (the mean of
per-subsystem means, 1/2) differs from the mean over individual samples
(5/6). -/
def c6Window : List PerformanceMetric :=
  [⟨0, "renderer", "frame_time", 1, 1, 1⟩, ⟨1, "renderer", "frame_time", 1, 1, 1⟩,
   ⟨2, "renderer", "frame_time", 1, 1, 1⟩, ⟨3, "renderer", "frame_time", 1, 1, 1⟩,
   ⟨4, "renderer", "frame_time", 1, 1, 1⟩, ⟨5, "renderer", "frame_time", 1, 1, 1⟩,
   ⟨6, "renderer", "frame_time", 1, 1, 1⟩, ⟨7, "renderer", "frame_time", 1, 1, 1⟩,
   ⟨8, "renderer", "frame_time", 1, 1, 1⟩, ⟨9, "renderer", "frame_time", 1, 1, 1⟩,
   ⟨10, "physics", "frame_time", 0, 1, 1⟩, ⟨11, "physics", "frame_time", 0, 1, 1⟩]

/-! ### Helper lemmas -/

theorem recordMetric_foldl (cap : Nat) :
    ∀ (ms h : List PerformanceMetric), h.length ≤ cap →
      ms.foldl (recordMetric cap) h = (h ++ ms).drop ((h ++ ms).length - cap) := by
  intro ms
  induction ms with
  | nil =>
    intro h hle
    simp [Nat.sub_eq_zero_of_le hle]
  | cons m ms ih =>
    intro h hle
    simp only [List.foldl_cons]
    by_cases hc : h.length + 1 > cap
    · have hcap : h.length = cap := by omega
      have hrec : recordMetric cap h m = (h ++ [m]).tail := by
        simp [recordMetric, hc]
      have htl : (h ++ [m]).tail.length ≤ cap := by
        simp only [List.length_tail, List.length_append, List.length_singleton]
        omega
      rw [hrec, ih ((h ++ [m]).tail) htl]
      have hX : (h ++ [m]).tail ++ ms = (h ++ m :: ms).drop 1 := by
        rw [← List.drop_one, ← List.drop_append_of_le_length (by simp)]
        simp [List.append_assoc]
      rw [hX, List.drop_drop]
      congr 1
      simp only [List.length_drop, List.length_append, List.length_cons]
      omega
    · have hrec : recordMetric cap h m = h ++ [m] := by
        simp only [recordMetric]
        rw [if_neg (by simpa using hc)]
      rw [hrec, ih (h ++ [m]) (by simp; omega)]
      simp [List.append_assoc]

theorem takeLast_ne_nil {α : Type} (l : List α) (n : Nat)
    (hl : l ≠ []) (hn : 0 < n) : takeLast l n ≠ [] := by
  have hlen : 0 < l.length := List.length_pos.mpr hl
  have : 0 < (takeLast l n).length := by
    simp only [takeLast, List.length_drop]
    omega
  exact List.ne_nil_of_length_pos this

/-! ### Claim theorems (first batch) -/

/-- C4: for every starting effectiveness in [0,1] and every finite
sequence of success/failure applications, the effectiveness stays within
[0,1] after each step, and the sequence success, success, failure,
success, success starting from 0 yields the trajectory
0, 0.1, 0.2, 0.15, 0.25, 0.35. -/
theorem C4_effectiveness_clamped :
    (∀ (l : List Bool) (e : ℚ), 0 ≤ e → e ≤ 1 →
        0 ≤ effRun l e ∧ effRun l e ≤ 1)
    ∧ List.scanl (fun e s => effStep s e) 0 [true, true, false, true, true]
        = [0, 1/10, 1/5, 3/20, 1/4, 7/20] := by
  constructor
  · have step01 : ∀ (s : Bool) (e : ℚ), 0 ≤ e → e ≤ 1 →
        0 ≤ effStep s e ∧ effStep s e ≤ 1 := by
      intro s e h0 h1
      cases s with
      | false =>
        refine ⟨le_max_left _ _, ?_⟩
        simp only [effStep, Bool.false_eq_true, if_false]
        apply max_le <;> linarith
      | true =>
        refine ⟨?_, ?_⟩
        · simp only [effStep, if_true]
          apply le_min <;> linarith
        · simp only [effStep, if_true]
          exact min_le_left _ _
    intro l
    induction l with
    | nil => intro e h0 h1; exact ⟨h0, h1⟩
    | cons s l ih =>
      intro e h0 h1
      have hs := step01 s e h0 h1
      simpa [effRun, List.foldl_cons] using ih (effStep s e) hs.1 hs.2
  · norm_num [List.scanl, effStep, min_def, max_def]

/-- Witness for C4 at a concrete input. -/
theorem C4_witness :
    0 ≤ (1/2 : ℚ) ∧ (1/2 : ℚ) ≤ 1
    ∧ (0 ≤ effRun [true, false] (1/2) ∧ effRun [true, false] (1/2) ≤ 1) :=
  ⟨by norm_num, by norm_num,
    C4_effectiveness_clamped.1 [true, false] (1/2) (by norm_num) (by norm_num)⟩

/-- C7: for every sequence of recorded metrics, the performance history
never exceeds the configured capacity (`performance_history_size`,
default 1000), and when the bound would be exceeded the oldest entry is
evicted, so the surviving history is always the most recent suffix of
the recorded sequence in FIFO order. -/
theorem C7_bounded_fifo_history :
    (∀ (cap : Nat) (ms : List PerformanceMetric),
        ms.foldl (recordMetric cap) [] = ms.drop (ms.length - cap)
        ∧ (ms.foldl (recordMetric cap) []).length ≤ cap)
    ∧ (∀ (st : SIState) (now : ℚ) (sn mn : String) (v t w : ℚ),
        (recordPerformanceMetric st now sn mn v t w).performance_history
          = recordMetric st.settings.performance_history_size
              st.performance_history ⟨now, sn, mn, v, t, w⟩)
    ∧ defaultSettings.performance_history_size = 1000 := by
  refine ⟨?_, fun _ _ _ _ _ _ _ => rfl, rfl⟩
  intro cap ms
  have h := recordMetric_foldl cap ms [] (by simp)
  simp only [List.nil_append] at h
  refine ⟨h, ?_⟩
  rw [h]
  simp only [List.length_drop]
  omega

/-- C8: with fewer than 10 samples in the performance history, the
analysis returns overall performance exactly 1.0 and an empty bottleneck
set. -/
theorem C8_insufficient_data_healthy :
    ∀ (history : List PerformanceMetric), history.length < 10 →
      (analyzePerformance history).overall_performance = 1
      ∧ (analyzePerformance history).bottlenecks = [] := by
  intro history hl
  simp [analyzePerformance, if_pos hl]

/-- Witness for C8 at a concrete three-sample history. -/
theorem C8_witness :
    ([(⟨0, "physics", "frame_time", 1, 2, 1⟩ : PerformanceMetric),
      ⟨1, "physics", "frame_time", 1, 2, 1⟩,
      ⟨2, "renderer", "frame_time", 1, 2, 1⟩] : List PerformanceMetric).length < 10
    ∧ ((analyzePerformance
        [⟨0, "physics", "frame_time", 1, 2, 1⟩,
         ⟨1, "physics", "frame_time", 1, 2, 1⟩,
         ⟨2, "renderer", "frame_time", 1, 2, 1⟩]).overall_performance = 1
      ∧ (analyzePerformance
        [⟨0, "physics", "frame_time", 1, 2, 1⟩,
         ⟨1, "physics", "frame_time", 1, 2, 1⟩,
         ⟨2, "renderer", "frame_time", 1, 2, 1⟩]).bottlenecks = []) :=
  ⟨by decide,
    C8_insufficient_data_healthy
      [⟨0, "physics", "frame_time", 1, 2, 1⟩,
       ⟨1, "physics", "frame_time", 1, 2, 1⟩,
       ⟨2, "renderer", "frame_time", 1, 2, 1⟩] (by decide)⟩

/-- C10: `get_performance_rating` always returns a value in [0,1]; it
returns exactly 1.0 on an empty history, and otherwise the mean of
value/target over the most recent (up to 50) metrics clamped into
[0,1]. -/
theorem C10_rating_bounds :
    ∀ (history : List PerformanceMetric),
      (0 ≤ getPerformanceRating history ∧ getPerformanceRating history ≤ 1)
      ∧ (history = [] → getPerformanceRating history = 1)
      ∧ (history ≠ [] → getPerformanceRating history
          = max 0 (min 1 (mean ((takeLast history 50).map ratioOf)))) := by
  intro history
  by_cases hemp : history = []
  · subst hemp
    refine ⟨⟨by norm_num [getPerformanceRating], by norm_num [getPerformanceRating]⟩,
      fun _ => rfl, fun h => absurd rfl h⟩
  · have hne : takeLast history 50 ≠ [] := takeLast_ne_nil _ _ hemp (by norm_num)
    have heq : getPerformanceRating history
        = max 0 (min 1 (mean ((takeLast history 50).map ratioOf))) := by
      simp only [getPerformanceRating, if_neg hemp, if_neg hne]
    refine ⟨⟨?_, ?_⟩, fun h => absurd h hemp, fun _ => heq⟩
    · rw [heq]; exact le_max_left _ _
    · rw [heq]
      apply max_le
      · norm_num
      · exact le_trans (min_le_left _ _) (le_refl _)

theorem runEngine_length (durations : List ℚ) :
    ∀ (st : EngineState),
      (runEngine durations st).performance_metrics.length
        = st.performance_metrics.length + durations.length := by
  induction durations with
  | nil => intro st; simp [runEngine]
  | cons d ds ih =>
    intro st
    have hstep : runEngine (d :: ds) st = runEngine ds (engineTick d st) := rfl
    rw [hstep, ih (engineTick d st)]
    simp [engineTick]
    omega

theorem processQueue_queue (pushOk : Bool) (now : ℚ) (st : SIState) :
    (processOptimizationQueue pushOk now st).optimization_queue
      = st.optimization_queue.drop 1 := by
  cases h : st.optimization_queue with
  | nil => simp [processOptimizationQueue, h]
  | cons a l => simp [processOptimizationQueue, h, applyOptimizationStrategy]

theorem processQueue_fields (pushOk : Bool) (now : ℚ) (st : SIState) :
    (processOptimizationQueue pushOk now st).last_adaptation_time = st.last_adaptation_time
    ∧ (processOptimizationQueue pushOk now st).settings = st.settings
    ∧ (processOptimizationQueue pushOk now st).performance_history = st.performance_history := by
  cases h : st.optimization_queue with
  | nil => simp [processOptimizationQueue, h]
  | cons a l => simp [processOptimizationQueue, h, applyOptimizationStrategy]

theorem trends_fields (st : SIState) :
    (updatePerformanceTrends st).optimization_queue = st.optimization_queue
    ∧ (updatePerformanceTrends st).last_adaptation_time = st.last_adaptation_time
    ∧ (updatePerformanceTrends st).settings = st.settings := by
  simp only [updatePerformanceTrends]
  split <;> simp

theorem suggestions_fields (now : ℚ) (st : SIState) :
    (generateImprovementSuggestions now st).optimization_queue = st.optimization_queue
    ∧ (generateImprovementSuggestions now st).last_adaptation_time = st.last_adaptation_time
    ∧ (generateImprovementSuggestions now st).settings = st.settings := by
  simp [generateImprovementSuggestions]

theorem updateTick_noadapt (pushOk : Bool) (now : ℚ) (st : SIState)
    (h : ¬ (now - st.last_adaptation_time > st.settings.adaptation_interval)) :
    (updateTick pushOk now st).optimization_queue = st.optimization_queue.drop 1
    ∧ (updateTick pushOk now st).last_adaptation_time = st.last_adaptation_time
    ∧ (updateTick pushOk now st).settings = st.settings := by
  have h2 := processQueue_fields pushOk now st
  have h2q := processQueue_queue pushOk now st
  have h3 := trends_fields (processOptimizationQueue pushOk now st)
  have h4 := suggestions_fields now
    (updatePerformanceTrends (processOptimizationQueue pushOk now st))
  simp only [updateTick, if_neg h]
  split
  · exact ⟨by rw [h4.1, h3.1, h2q], by rw [h4.2.1, h3.2.1, h2.1],
      by rw [h4.2.2, h3.2.2, h2.2.1]⟩
  · exact ⟨by rw [h3.1, h2q], by rw [h3.2.1, h2.1], by rw [h3.2.2, h2.2.1]⟩

/-! ### Claim theorems (second batch) -/

/-- C2 fails on the code: `_main_loop` stores one record per frame in
`performance_metrics` and never evicts, so after 301 running ticks the
stored per-frame timing collection holds 301 entries, more than 300. -/
theorem C2_counterexample :
    ¬ ((runEngine (List.replicate 301 (1/100)) engineInit).performance_metrics.length
        ≤ 300) := by
  rw [runEngine_length, List.length_replicate]
  have h0 : engineInit.performance_metrics.length = 0 := rfl
  omega

/-- C2 amended: the per-frame timing collection is unbounded — after N
running ticks from a fresh start it holds exactly N entries, one per
tick; only the statistics readers slice out the most recent 300
entries. -/
theorem C2_amended_unbounded_history :
    ∀ (durations : List ℚ),
      (runEngine durations engineInit).performance_metrics.length = durations.length
      ∧ ∀ (st : EngineState), (statsWindow st).length ≤ 300 := by
  intro ds
  constructor
  · rw [runEngine_length]
    have h0 : engineInit.performance_metrics.length = 0 := rfl
    omega
  · intro st
    simp only [statsWindow, takeLast, List.length_drop]
    omega

/-- C1 fails on the code: when the simulated parameter push fails,
`_apply_optimization_strategy` decrements the effectiveness by 0.05 as
specified but still returns `True`, so `_process_optimization_queue`
increments `optimizations_applied` and `application_count` and sets
`last_applied`, while `failed_optimizations` stays unchanged. -/
theorem C1_failed_push_still_counted :
    ((processOptimizationQueue false 42 c1State).optimization_strategies.map
        (fun s => (s.effectiveness, s.application_count, s.last_applied)))
        = [(9/20, 4, 42)]
    ∧ (processOptimizationQueue false 42 c1State).stats.optimizations_applied
        = c1State.stats.optimizations_applied + 1
    ∧ (processOptimizationQueue false 42 c1State).stats.failed_optimizations
        = c1State.stats.failed_optimizations := by
  norm_num [processOptimizationQueue, c1State, c1Strategy, applyOptimizationStrategy,
    updateStrategy, effStep, max_def]

/-- C5: starting from any state, over any run of update ticks in which
the adaptation cycle never fires, exactly one queued request is removed
per tick and none is added, so a queue of N requests empties in exactly N
ticks and never fewer. -/
theorem C5_one_per_tick_drain :
    ∀ (ticks : List (Bool × ℚ)) (st : SIState),
      (∀ p ∈ ticks, ¬ (p.2 - st.last_adaptation_time > st.settings.adaptation_interval)) →
      (runTicks ticks st).optimization_queue = st.optimization_queue.drop ticks.length
      ∧ (ticks.length = st.optimization_queue.length →
          (runTicks ticks st).optimization_queue = [])
      ∧ (ticks.length < st.optimization_queue.length →
          (runTicks ticks st).optimization_queue ≠ []) := by
  have main : ∀ (ticks : List (Bool × ℚ)) (st : SIState),
      (∀ p ∈ ticks, ¬ (p.2 - st.last_adaptation_time > st.settings.adaptation_interval)) →
      (runTicks ticks st).optimization_queue = st.optimization_queue.drop ticks.length := by
    intro ticks
    induction ticks with
    | nil => intro st _; simp [runTicks]
    | cons p ts ih =>
      intro st hyp
      have hp := hyp p (List.mem_cons_self _ _)
      have ht := updateTick_noadapt p.1 p.2 st hp
      have hyp' : ∀ q ∈ ts,
          ¬ (q.2 - (updateTick p.1 p.2 st).last_adaptation_time
              > (updateTick p.1 p.2 st).settings.adaptation_interval) := by
        intro q hq
        rw [ht.2.1, ht.2.2]
        exact hyp q (List.mem_cons_of_mem _ hq)
      have hstep : runTicks (p :: ts) st = runTicks ts (updateTick p.1 p.2 st) := rfl
      rw [hstep, ih (updateTick p.1 p.2 st) hyp', ht.1, List.drop_drop]
      congr 1
      simp only [List.length_cons]
      omega
  intro ticks st hyp
  have h := main ticks st hyp
  refine ⟨h, ?_, ?_⟩
  · intro hlen
    rw [h, hlen]
    exact List.drop_length _
  · intro hlen
    rw [h]
    have hpos : 0 < (st.optimization_queue.drop ticks.length).length := by
      rw [List.length_drop]
      omega
    exact List.ne_nil_of_length_pos hpos

/-- Witness for C5: a two-request queue drains to empty in two
non-adapting ticks. -/
theorem C5_witness :
    (∀ p ∈ [((true : Bool), (1 : ℚ)), (false, 2)],
        ¬ (p.2 - c5State.last_adaptation_time > c5State.settings.adaptation_interval))
    ∧ (runTicks [(true, 1), (false, 2)] c5State).optimization_queue
        = c5State.optimization_queue.drop 2 := by
  have h : ∀ p ∈ [((true : Bool), (1 : ℚ)), (false, 2)],
      ¬ (p.2 - c5State.last_adaptation_time > c5State.settings.adaptation_interval) := by
    intro p hp
    simp only [List.mem_cons, List.not_mem_nil, or_false] at hp
    rcases hp with rfl | rfl <;> norm_num [c5State]
  exact ⟨h, (C5_one_per_tick_drain [(true, 1), (false, 2)] c5State h).1⟩

/-- Witness for C10 at a concrete one-sample history. -/
theorem C10_witness :
    ([(⟨0, "physics", "frame_time", 3, 4, 1⟩ : PerformanceMetric)] ≠ [])
    ∧ getPerformanceRating [⟨0, "physics", "frame_time", 3, 4, 1⟩]
        = max 0 (min 1 (mean ((takeLast [(⟨0, "physics", "frame_time", 3, 4, 1⟩ : PerformanceMetric)] 50).map ratioOf))) :=
  ⟨by decide,
    (C10_rating_bounds [⟨0, "physics", "frame_time", 3, 4, 1⟩]).2.2 (by decide)⟩

theorem mem_foldl_dedup (l : List String) :
    ∀ (acc : List String) (y : String),
      y ∈ l.foldl (fun acc x => if x ∈ acc then acc else acc ++ [x]) acc
        ↔ y ∈ acc ∨ y ∈ l := by
  induction l with
  | nil => intro acc y; simp
  | cons x xs ih =>
    intro acc y
    simp only [List.foldl_cons]
    rw [ih]
    by_cases hx : x ∈ acc
    · rw [if_pos hx]
      simp only [List.mem_cons]
      constructor
      · intro h; tauto
      · rintro (h | rfl | h)
        · tauto
        · exact Or.inl hx
        · tauto
    · rw [if_neg hx]
      simp only [List.mem_append, List.mem_singleton, List.mem_cons]
      tauto

theorem mem_dedupFirst (l : List String) (y : String) :
    y ∈ dedupFirst l ↔ y ∈ l := by
  rw [dedupFirst, mem_foldl_dedup]
  simp

theorem dedupFirst_append (l : List String) (x : String) :
    dedupFirst (l ++ [x])
      = if x ∈ l then dedupFirst l else dedupFirst l ++ [x] := by
  have hstep : dedupFirst (l ++ [x])
      = if x ∈ dedupFirst l then dedupFirst l else dedupFirst l ++ [x] := by
    simp only [dedupFirst, List.foldl_append, List.foldl_cons, List.foldl_nil]
  rw [hstep]
  by_cases h : x ∈ l
  · rw [if_pos ((mem_dedupFirst l x).mpr h), if_pos h]
  · rw [if_neg (fun hc => h ((mem_dedupFirst l x).mp hc)), if_neg h]

theorem groupRatios_eq (ms : List PerformanceMetric) :
    groupRatios ms = (specSystems ms).map
      (fun s => (s, (ms.filter (fun m => m.system_name = s)).map ratioOf)) := by
  induction ms using List.reverseRecOn with
  | nil => rfl
  | append_singleton ms m ih =>
    have hgr : groupRatios (ms ++ [m]) = addRatio (groupRatios ms) m := by
      simp [groupRatios, List.foldl_append]
    have hnames : (ms ++ [m]).map (fun x => x.system_name)
        = ms.map (fun x => x.system_name) ++ [m.system_name] := by
      simp
    by_cases hm : m.system_name ∈ ms.map (fun x => x.system_name)
    · have hcond : ((specSystems ms).map
          (fun s => (s, (ms.filter (fun x => x.system_name = s)).map ratioOf))).any
            (fun p => p.1 = m.system_name) = true := by
        rw [List.any_eq_true]
        refine ⟨(m.system_name,
          (ms.filter (fun x => x.system_name = m.system_name)).map ratioOf), ?_, by simp⟩
        exact List.mem_map_of_mem _ ((mem_dedupFirst _ _).mpr hm)
      rw [hgr, ih]
      simp only [addRatio]
      rw [if_pos hcond]
      have hsys : specSystems (ms ++ [m]) = specSystems ms := by
        simp only [specSystems, hnames, dedupFirst_append, if_pos hm]
      rw [hsys, List.map_map]
      apply List.map_congr_left
      intro s _
      simp only [Function.comp_apply]
      by_cases hs : s = m.system_name
      · subst hs
        simp only [if_pos rfl, List.filter_append, Prod.mk.injEq, true_and]
        rw [List.filter_singleton]
        simp
      · have hps : ¬ (m.system_name = s) := fun hc => hs hc.symm
        simp only [if_neg hs, List.filter_append, Prod.mk.injEq, true_and]
        rw [List.filter_singleton]
        simp [hps]
    · have hcond : ((specSystems ms).map
          (fun s => (s, (ms.filter (fun x => x.system_name = s)).map ratioOf))).any
            (fun p => p.1 = m.system_name) = false := by
        rw [List.any_eq_false]
        intro x hx
        obtain ⟨s, hs, rfl⟩ := List.mem_map.mp hx
        simp only [decide_eq_true_eq]
        intro hc
        exact hm (hc ▸ (mem_dedupFirst _ _).mp hs)
      rw [hgr, ih]
      simp only [addRatio]
      rw [if_neg (by rw [hcond]; exact Bool.false_ne_true)]
      have hsys : specSystems (ms ++ [m]) = specSystems ms ++ [m.system_name] := by
        simp only [specSystems, hnames, dedupFirst_append, if_neg hm]
      rw [hsys, List.map_append]
      congr 1
      · apply List.map_congr_left
        intro s hs
        have hss : s ∈ ms.map (fun x => x.system_name) := (mem_dedupFirst _ _).mp hs
        have hps : ¬ (m.system_name = s) := fun hc => hm (hc ▸ hss)
        simp only [List.filter_append, Prod.mk.injEq, true_and]
        rw [List.filter_singleton]
        simp [hps]
      · have hfil : ms.filter (fun x => x.system_name = m.system_name) = [] := by
          rw [List.filter_eq_nil_iff]
          intro a ha
          simp only [decide_eq_true_eq]
          intro hc
          exact hm (List.mem_map.mpr ⟨a, ha, hc⟩)
        simp only [List.map_singleton, List.filter_append, hfil, List.nil_append,
          Prod.mk.injEq, true_and]
        rw [List.filter_singleton]
        simp

theorem mul_length_le_sum (l : List ℚ) (c : ℚ) (h : ∀ x ∈ l, c ≤ x) :
    c * l.length ≤ l.sum := by
  induction l with
  | nil => simp
  | cons a as ih =>
    have ha := h a (by simp)
    have has : c * as.length ≤ as.sum :=
      ih (fun x hx => h x (List.mem_cons_of_mem _ hx))
    simp only [List.sum_cons, List.length_cons]
    push_cast
    nlinarith [has]

theorem le_mean (l : List ℚ) (c : ℚ) (hne : l ≠ []) (h : ∀ x ∈ l, c ≤ x) :
    c ≤ mean l := by
  have hlen : 0 < (l.length : ℚ) := by
    have hp : 0 < l.length := List.length_pos.mpr hne
    exact_mod_cast hp
  rw [mean, le_div_iff₀ hlen]
  exact mul_length_le_sum l c h

/-- C6: the analyzer computes for each subsystem the mean of
value/target over that subsystem's metrics in the window (the last 100
samples); a subsystem is reported as a bottleneck exactly when its mean
ratio is < 0.7, with severity high when the ratio is < 0.5 and medium
otherwise; and overall performance equals the unweighted mean of the
per-subsystem means — not the mean over individual samples, as the
concrete window `c6Window` (overall 1/2, sample mean 5/6) exhibits. -/
theorem C6_analyzer_refinement :
    ∀ (history : List PerformanceMetric), 10 ≤ history.length →
      ((analyzePerformance history).system_performance
          = (specSystems (takeLast history 100)).map
              (fun s => (s, specSystemMean (takeLast history 100) s)))
      ∧ ((analyzePerformance history).overall_performance
          = mean ((specSystems (takeLast history 100)).map
              (fun s => specSystemMean (takeLast history 100) s)))
      ∧ (∀ s ∈ specSystems (takeLast history 100),
          ((∃ b ∈ (analyzePerformance history).bottlenecks, b.system = s)
            ↔ specSystemMean (takeLast history 100) s < 7/10))
      ∧ (∀ b ∈ (analyzePerformance history).bottlenecks,
          b.performance = specSystemMean (takeLast history 100) b.system
          ∧ b.severity = (if b.performance < 1/2 then "high" else "medium"))
      ∧ ((analyzePerformance c6Window).overall_performance = 1/2
          ∧ mean (c6Window.map ratioOf) = 5/6) := by
  intro history hlen
  have hhist_ne : history ≠ [] := List.ne_nil_of_length_pos (by omega)
  set w := takeLast history 100 with hwdef
  have hw : w ≠ [] := takeLast_ne_nil _ _ hhist_ne (by norm_num)
  have hap : analyzePerformance history = analyzeWindow w := by
    rw [analyzePerformance, if_neg (by omega)]
  have havg : (groupRatios w).map (fun p => (p.1, mean p.2))
      = (specSystems w).map (fun s => (s, specSystemMean w s)) := by
    rw [groupRatios_eq, List.map_map]
    rfl
  have hspec_ne : specSystems w ≠ [] := by
    obtain ⟨m, hmem⟩ := List.exists_mem_of_ne_nil w hw
    exact List.ne_nil_of_mem ((mem_dedupFirst _ _).mpr (List.mem_map_of_mem _ hmem))
  have hbne : ((specSystems w).map (fun s => (s, specSystemMean w s))) ≠ [] := by
    rw [Ne, List.map_eq_nil_iff]
    exact hspec_ne
  have hsp : (analyzeWindow w).system_performance
      = (specSystems w).map (fun s => (s, specSystemMean w s)) := by
    rw [show (analyzeWindow w).system_performance
        = (groupRatios w).map (fun p => (p.1, mean p.2)) from rfl, havg]
  have hov : (analyzeWindow w).overall_performance
      = mean ((specSystems w).map (fun s => specSystemMean w s)) := by
    have h0 : (analyzeWindow w).overall_performance
        = if ((groupRatios w).map (fun p => (p.1, mean p.2))).isEmpty then 1
          else mean (((groupRatios w).map (fun p => (p.1, mean p.2))).map
            (fun p => p.2)) := rfl
    rw [h0, havg, List.isEmpty_eq_false.mpr hbne]
    simp only [Bool.false_eq_true, if_false]
    rw [List.map_map]
    rfl
  have hbot : (analyzeWindow w).bottlenecks
      = (specSystems w).filterMap (fun s =>
          if specSystemMean w s < 7/10 then
            some ⟨s, specSystemMean w s,
                  if specSystemMean w s < 1/2 then "high" else "medium"⟩
          else none) := by
    have h0 : (analyzeWindow w).bottlenecks
        = ((groupRatios w).map (fun p => (p.1, mean p.2))).filterMap
            (fun p => if p.2 < 7/10 then
              some ⟨p.1, p.2, if p.2 < 1/2 then "high" else "medium"⟩
            else none) := rfl
    rw [h0, havg, List.filterMap_map]
    rfl
  rw [hap]
  refine ⟨hsp, hov, ?_, ?_,
    by norm_num +decide [analyzePerformance, analyzeWindow, takeLast, c6Window,
      groupRatios, addRatio, mean, ratioOf],
    by norm_num +decide [c6Window, mean, ratioOf]⟩
  · intro s hs
    rw [hbot]
    constructor
    · rintro ⟨b, hb, hbs⟩
      obtain ⟨a, ha, hga⟩ := List.mem_filterMap.mp hb
      by_cases hlt : specSystemMean w a < 7/10
      · rw [if_pos hlt] at hga
        have hb2 := Option.some.inj hga
        subst hb2
        subst hbs
        exact hlt
      · rw [if_neg hlt] at hga
        exact absurd hga (by simp)
    · intro hlt
      refine ⟨⟨s, specSystemMean w s,
        if specSystemMean w s < 1/2 then "high" else "medium"⟩, ?_, rfl⟩
      exact List.mem_filterMap.mpr ⟨s, hs, by rw [if_pos hlt]⟩
  · intro b hb
    rw [hbot] at hb
    obtain ⟨a, ha, hga⟩ := List.mem_filterMap.mp hb
    by_cases hlt : specSystemMean w a < 7/10
    · rw [if_pos hlt] at hga
      have hb2 := Option.some.inj hga
      subst hb2
      exact ⟨rfl, rfl⟩
    · rw [if_neg hlt] at hga
      exact absurd hga (by simp)

/-- Witness for C6 on the concrete twelve-sample window. -/
theorem C6_witness :
    10 ≤ c6Window.length
    ∧ (analyzePerformance c6Window).overall_performance
        = mean ((specSystems (takeLast c6Window 100)).map
            (fun s => specSystemMean (takeLast c6Window 100) s)) :=
  ⟨by decide, (C6_analyzer_refinement c6Window (by decide)).2.1⟩

theorem enqueue_fold_fields (now : ℚ) :
    ∀ (bs : List Bottleneck) (st : SIState),
      (bs.foldl (enqueueBottleneck now) st).performance_history = st.performance_history
      ∧ (bs.foldl (enqueueBottleneck now) st).system_baselines = st.system_baselines := by
  intro bs
  induction bs with
  | nil => intro st; exact ⟨rfl, rfl⟩
  | cons b bs ih =>
    intro st
    rw [List.foldl_cons]
    have hstep : (enqueueBottleneck now st b).performance_history = st.performance_history
        ∧ (enqueueBottleneck now st b).system_baselines = st.system_baselines := by
      simp only [enqueueBottleneck]
      split <;> exact ⟨rfl, rfl⟩
    obtain ⟨h1, h2⟩ := ih (enqueueBottleneck now st b)
    exact ⟨h1.trans hstep.1, h2.trans hstep.2⟩

theorem bottlenecks_empty_of_healthy (history : List PerformanceMetric)
    (h : ∀ r ∈ history, 4/5 ≤ ratioOf r) :
    (analyzePerformance history).bottlenecks = [] := by
  by_cases hlen : history.length < 10
  · simp [analyzePerformance, if_pos hlen]
  · rw [analyzePerformance, if_neg hlen]
    have hsub : ∀ r ∈ takeLast history 100, 4/5 ≤ ratioOf r := by
      intro r hr
      exact h r (List.drop_subset _ _ hr)
    have h0 : (analyzeWindow (takeLast history 100)).bottlenecks
        = ((groupRatios (takeLast history 100)).map (fun p => (p.1, mean p.2))).filterMap
            (fun p => if p.2 < 7/10 then
              some ⟨p.1, p.2, if p.2 < 1/2 then "high" else "medium"⟩
            else none) := rfl
    rw [h0, groupRatios_eq, List.map_map, List.filterMap_map,
      List.filterMap_eq_nil_iff]
    intro s hs
    have hsne : (takeLast history 100).filter (fun m => m.system_name = s) ≠ [] := by
      obtain ⟨r, hr, hrs⟩ := List.mem_map.mp ((mem_dedupFirst _ _).mp hs)
      exact List.ne_nil_of_mem (List.mem_filter.mpr ⟨hr, by simp [hrs]⟩)
    have hge : 4/5 ≤ mean (((takeLast history 100).filter
        (fun m => m.system_name = s)).map ratioOf) := by
      apply le_mean
      · rw [Ne, List.map_eq_nil_iff]
        exact hsne
      · intro x hx
        obtain ⟨r, hr, rfl⟩ := List.mem_map.mp hx
        exact hsub r (List.mem_of_mem_filter hr)
    simp only [Function.comp_apply]
    rw [if_neg (by intro hc; linarith)]

theorem performAdaptation_effect (now : ℚ) (st : SIState)
    (hb : (analyzePerformance st.performance_history).bottlenecks = []) :
    (performAdaptation now st).optimization_queue = st.optimization_queue
    ∧ (performAdaptation now st).performance_history = st.performance_history := by
  simp only [performAdaptation, applyOptimizations, hb, List.foldl_nil]
  split <;> exact ⟨rfl, rfl⟩

/-- C3: if every metric in the performance history satisfies
value/target ≥ 0.8, then no OptimizationRequest is ever appended to the
optimization queue: the queue is unchanged by any number of adaptation
cycles. -/
theorem C3_healthy_no_enqueue :
    ∀ (times : List ℚ) (st : SIState),
      (∀ r ∈ st.performance_history, 4/5 ≤ ratioOf r) →
      (adaptRun times st).optimization_queue = st.optimization_queue := by
  intro times
  induction times with
  | nil => intro st _; rfl
  | cons t ts ih =>
    intro st h
    have hb := bottlenecks_empty_of_healthy st.performance_history h
    have he := performAdaptation_effect t st hb
    have hstep : adaptRun (t :: ts) st = adaptRun ts (performAdaptation t st) := rfl
    rw [hstep, ih (performAdaptation t st) (by rw [he.2]; exact h), he.1]

/-- Witness for C3: two adaptation cycles on a healthy three-sample
state leave its one-request queue untouched. -/
theorem C3_witness :
    (∀ r ∈ c3State.performance_history, 4/5 ≤ ratioOf r)
    ∧ (adaptRun [10, 20] c3State).optimization_queue = c3State.optimization_queue := by
  have h : ∀ r ∈ c3State.performance_history, 4/5 ≤ ratioOf r := by
    intro r hr
    simp only [c3State, List.mem_cons, List.not_mem_nil, or_false] at hr
    rcases hr with rfl | rfl | rfl <;> norm_num [ratioOf]
  exact ⟨h, C3_healthy_no_enqueue [10, 20] c3State h⟩

theorem baselineFold_const (s mt : String) (V : ℚ) :
    ∀ (ms : List PerformanceMetric) (b : Baselines) (x : ℚ),
      (∀ r ∈ ms, r.system_name = s ∧ r.metric_name = mt ∧ r.value = V) →
      b s mt = some x →
      (ms.foldl baselineStep b) s mt
        = some ((fun y => y * (9/10) + V * (1/10))^[ms.length] x) := by
  intro ms
  induction ms with
  | nil =>
    intro b x _ hb
    simpa using hb
  | cons r rs ih =>
    intro b x hall hb
    obtain ⟨hs, hmt, hv⟩ := hall r (by simp)
    have hstep : (baselineStep b r) s mt = some (x * (9/10) + V * (1/10)) := by
      simp only [baselineStep]
      rw [if_pos ⟨hs.symm, hmt.symm⟩, hs, hmt, hb, hv]
      simp
    rw [List.foldl_cons]
    rw [ih (baselineStep b r) (x * (9/10) + V * (1/10))
      (fun q hq => hall q (List.mem_cons_of_mem _ hq)) hstep]
    simp only [List.length_cons, Function.iterate_succ_apply]

theorem baselineFold_some (s mt : String) (V : ℚ)
    (ms : List PerformanceMetric) (b : Baselines)
    (hall : ∀ r ∈ ms, r.system_name = s ∧ r.metric_name = mt ∧ r.value = V)
    (hne : ms ≠ []) :
    ∃ y, (ms.foldl baselineStep b) s mt = some y := by
  cases ms with
  | nil => exact absurd rfl hne
  | cons r rs =>
    obtain ⟨hs, hmt, hv⟩ := hall r (by simp)
    have hx1 : (baselineStep b r) s mt
        = some ((b s mt).getD r.target * (9/10) + V * (1/10)) := by
      simp only [baselineStep]
      rw [if_pos ⟨hs.symm, hmt.symm⟩, hs, hmt, hv]
    rw [List.foldl_cons]
    exact ⟨_, baselineFold_const s mt V rs (baselineStep b r) _
      (fun q hq => hall q (List.mem_cons_of_mem _ hq)) hx1⟩

theorem takeLast_length_of_le {α : Type} (l : List α) (n : Nat)
    (h : n ≤ l.length) : (takeLast l n).length = n := by
  simp only [takeLast, List.length_drop]
  omega

theorem performAdaptation_baselines (now : ℚ) (st : SIState) :
    (performAdaptation now st).system_baselines
      = updateBaselines st.performance_history st.system_baselines
    ∧ (performAdaptation now st).performance_history = st.performance_history := by
  simp only [performAdaptation, applyOptimizations]
  split
  · have hf := enqueue_fold_fields now
      (analyzePerformance st.performance_history).bottlenecks
      { st with stats :=
        { st.stats with learning_cycles := st.stats.learning_cycles + 1 } }
    exact ⟨by rw [hf.2, hf.1], hf.1⟩
  · exact ⟨rfl, rfl⟩

theorem adaptRun_baselines_const (s mt : String) (V : ℚ) :
    ∀ (ts : List ℚ) (st : SIState) (x : ℚ),
      100 ≤ st.performance_history.length →
      (∀ r ∈ takeLast st.performance_history 100,
        r.system_name = s ∧ r.metric_name = mt ∧ r.value = V) →
      st.system_baselines s mt = some x →
      (adaptRun ts st).system_baselines s mt
        = some ((fun y => y * (9/10) + V * (1/10))^[100 * ts.length] x)
      ∧ (adaptRun ts st).performance_history = st.performance_history := by
  intro ts
  induction ts with
  | nil =>
    intro st x _ _ hb
    exact ⟨by simpa using hb, rfl⟩
  | cons t ts ih =>
    intro st x hlen hall hb
    have hpa := performAdaptation_baselines t st
    have hup : updateBaselines st.performance_history st.system_baselines s mt
        = some ((fun y => y * (9/10) + V * (1/10))^[100] x) := by
      rw [updateBaselines, if_neg (by omega)]
      rw [baselineFold_const s mt V _ _ x hall hb,
        takeLast_length_of_le _ _ hlen]
    have hb' : (performAdaptation t st).system_baselines s mt
        = some ((fun y => y * (9/10) + V * (1/10))^[100] x) := by
      rw [hpa.1, hup]
    have hrec := ih (performAdaptation t st)
      ((fun y => y * (9/10) + V * (1/10))^[100] x)
      (by rw [hpa.2]; exact hlen) (by rw [hpa.2]; exact hall) hb'
    have hstep : adaptRun (t :: ts) st = adaptRun ts (performAdaptation t st) := rfl
    refine ⟨?_, by rw [hstep, hrec.2, hpa.2]⟩
    rw [hstep, hrec.1, ← Function.iterate_add_apply]
    congr 2

theorem emaIter_dist (V x : ℚ) :
    ∀ (n : ℕ), (fun y => y * (9/10) + V * (1/10))^[n] x - V = (9/10)^n * (x - V) := by
  intro n
  induction n with
  | zero => simp
  | succ n ih =>
    rw [Function.iterate_succ_apply']
    show ((fun y => y * (9/10) + V * (1/10))^[n] x) * (9/10) + V * (1/10) - V
        = (9/10)^(n+1) * (x - V)
    linear_combination (9/10 : ℚ) * ih

/-- C9: baselines are updated only once at least 100 samples exist, each
per-metric update being an EMA with weight 0.9 on the old baseline and
0.1 on the observed value; consequently, with the last 100 samples all
reporting a constant value V for one (subsystem, metric), enough
adaptation cycles drive that baseline to within any positive epsilon of
V. -/
theorem C9_baseline_ema_convergence :
    (∀ (history : List PerformanceMetric) (b : Baselines),
        history.length < 100 → updateBaselines history b = b)
    ∧ (∀ (b : Baselines) (r : PerformanceMetric) (old : ℚ),
        b r.system_name r.metric_name = some old →
        (baselineStep b r) r.system_name r.metric_name
          = some (old * (9/10) + r.value * (1/10)))
    ∧ (∀ (st : SIState) (s mt : String) (V ε : ℚ), 0 < ε →
        100 ≤ st.performance_history.length →
        (∀ r ∈ takeLast st.performance_history 100,
          r.system_name = s ∧ r.metric_name = mt ∧ r.value = V) →
        ∃ K : ℕ, ∀ ts : List ℚ, K ≤ ts.length →
          ∃ y, (adaptRun ts st).system_baselines s mt = some y ∧ |y - V| < ε) := by
  refine ⟨?_, ?_, ?_⟩
  · intro history b hlen
    rw [updateBaselines, if_pos hlen]
  · intro b r old hb
    simp [baselineStep, hb]
  · intro st s mt V ε hε hlen hall
    have hwne : takeLast st.performance_history 100 ≠ [] := by
      have := takeLast_length_of_le st.performance_history 100 hlen
      exact List.ne_nil_of_length_pos (by omega)
    obtain ⟨x1, hx1⟩ := baselineFold_some s mt V
      (takeLast st.performance_history 100) st.system_baselines hall hwne
    have hx1' : updateBaselines st.performance_history st.system_baselines s mt
        = some x1 := by
      rw [updateBaselines, if_neg (by omega)]
      exact hx1
    have hpos : (0:ℚ) < |x1 - V| + 1 := by positivity
    obtain ⟨n0, hn0⟩ := exists_pow_lt_of_lt_one
      (div_pos hε hpos) (show (9/10 : ℚ) < 1 by norm_num)
    refine ⟨n0 + 1, ?_⟩
    intro ts hts
    cases ts with
    | nil => simp at hts
    | cons t ts =>
      have hpa := performAdaptation_baselines t st
      have hb1 : (performAdaptation t st).system_baselines s mt = some x1 := by
        rw [hpa.1, hx1']
      have hrun := adaptRun_baselines_const s mt V ts (performAdaptation t st) x1
        (by rw [hpa.2]; exact hlen) (by rw [hpa.2]; exact hall) hb1
      have hstep : adaptRun (t :: ts) st = adaptRun ts (performAdaptation t st) := rfl
      refine ⟨_, by rw [hstep, hrun.1], ?_⟩
      rw [emaIter_dist]
      have hlen' : n0 ≤ 100 * ts.length := by
        simp only [List.length_cons] at hts
        omega
      have h1 : |(9/10 : ℚ) ^ (100 * ts.length) * (x1 - V)|
          = (9/10 : ℚ) ^ (100 * ts.length) * |x1 - V| := by
        rw [abs_mul, abs_of_nonneg (by positivity)]
      rw [h1]
      have h2 : (9/10 : ℚ) ^ (100 * ts.length) ≤ (9/10 : ℚ) ^ n0 :=
        pow_le_pow_of_le_one (by norm_num) (by norm_num) hlen'
      have h3 : (9/10 : ℚ) ^ (100 * ts.length) * |x1 - V|
          ≤ (9/10 : ℚ) ^ n0 * (|x1 - V| + 1) := by
        have ha : (0:ℚ) ≤ |x1 - V| := abs_nonneg _
        nlinarith [pow_nonneg (show (0:ℚ) ≤ 9/10 by norm_num) (100 * ts.length)]
      have h4 : (9/10 : ℚ) ^ n0 * (|x1 - V| + 1) < ε :=
        (lt_div_iff₀ hpos).mp hn0
      linarith

/-- Witness for C9 on a state with 100 constant samples of value 5. -/
theorem C9_witness :
    (0 : ℚ) < 1
    ∧ 100 ≤ c9State.performance_history.length
    ∧ (∃ K : ℕ, ∀ ts : List ℚ, K ≤ ts.length →
        ∃ y, (adaptRun ts c9State).system_baselines "physics" "frame_time" = some y
          ∧ |y - 5| < 1) := by
  refine ⟨by norm_num, by simp [c9State], ?_⟩
  refine C9_baseline_ema_convergence.2.2 c9State "physics" "frame_time" 5 1
    (by norm_num) (by simp [c9State]) ?_
  intro r hr
  simp only [c9State, takeLast, List.length_replicate, Nat.sub_self,
    List.drop_zero, List.mem_replicate] at hr
  rw [hr.2]
  exact ⟨rfl, rfl, rfl⟩

end NetworkGod
